import Mathlib

/-!
Shallow embedding of the `cosmic-edit` configuration and menu modules
(`src/config.rs`, `src/menu.rs`).

Modelling conventions:
* Rust `u16` fields become `Nat`; the `i8` zoom offset becomes `Int`.
* `f32` arithmetic is modelled as exact rational arithmetic over `ℚ`
  (the conversions `u16 → f32` and `i8 → f32` in the source are exact; the
  properties proved here concern clamping and ceiling, which the source
  computes with `max` and `ceil` on the converted values).
* The external `regex` crate (used by `Config::find_regex`) and the external
  toolkit theme / keybinding / localization facilities are modelled from the
  spec where noted in the individual doc comments.
-/

namespace CosmicEdit

/-- Application messages. The source's `Message` enum is external to the two
shown files; only the variants used by `menu.rs` are modelled. -/
inductive Message where
  | New
  | OpenFileDialog
  | Save
  | Todo
deriving DecidableEq, Repr

/-- The three-way theme preference from `config.rs`. -/
inductive AppTheme where
  | Dark
  | Light
  | System
deriving DecidableEq, Repr

/-- Modelled from the spec: the resolved theme descriptor produced by the
external toolkit; only its darkness is consulted by this code. -/
structure Theme where
  dark : Bool
deriving DecidableEq, Repr

/-- `AppTheme::theme` from `config.rs`: `Dark` forces a dark theme
(`prefer_dark(Some(true))`), `Light` forces a light one, `System` delegates to
the host preference. The host preference is passed explicitly since the
toolkit query is external. -/
def AppTheme.theme (t : AppTheme) (systemPrefersDark : Bool) : Theme :=
  match t with
  | .Dark => ⟨true⟩
  | .Light => ⟨false⟩
  | .System => ⟨systemPrefersDark⟩

/-- The `Config` record from `config.rs`. The final `keybinds` field is
modelled from the spec: `menu.rs` reads `config.keybinds` as an iterable of
(key-label, message) pairs, but the field is absent from the shown
`config.rs`; key labels are modelled by their textual representation. -/
structure Config where
  app_theme : AppTheme
  auto_indent : Bool
  find_case_sensitive : Bool
  find_use_regex : Bool
  find_wrap_around : Bool
  font_name : String
  font_size : Nat
  font_size_zoom_step_mul_100 : Nat
  highlight_current_line : Bool
  line_numbers : Bool
  syntax_theme_dark : String
  syntax_theme_light : String
  tab_width : Nat
  vim_bindings : Bool
  word_wrap : Bool
  keybinds : List (String × Message)
deriving DecidableEq, Repr

/-- `Default for Config` from `config.rs` (the modelled `keybinds` table
defaults to empty). -/
def Config.default : Config where
  app_theme := AppTheme.System
  auto_indent := true
  find_case_sensitive := false
  find_use_regex := false
  find_wrap_around := true
  font_name := "Noto Sans Mono"
  font_size := 14
  font_size_zoom_step_mul_100 := 100
  highlight_current_line := true
  line_numbers := true
  syntax_theme_dark := "COSMIC Dark"
  syntax_theme_light := "COSMIC Light"
  tab_width := 4
  vim_bindings := false
  word_wrap := true
  keybinds := []

/-- `Config::font_size_adjusted` from `config.rs`:
`(f32::from(font_size).max(1.0) + f32::from(zoom_adj) * adj_step).max(1.0)`
with `adj_step = f32::from(font_size_zoom_step_mul_100) / 100.0`. -/
def Config.font_size_adjusted (cfg : Config) (zoom_adj : Int) : ℚ :=
  let font_size : ℚ := max (cfg.font_size : ℚ) 1
  let adj : ℚ := (zoom_adj : ℚ)
  let adj_step : ℚ := (cfg.font_size_zoom_step_mul_100 : ℚ) / 100
  max (font_size + adj * adj_step) 1

/-- The `(font_size, line_height)` pair from `cosmic_text::Metrics`. -/
structure Metrics where
  font_size : ℚ
  line_height : ℚ
deriving DecidableEq, Repr

/-- `Metrics::new` of the external text library: plain record construction. -/
def Metrics.new (font_size line_height : ℚ) : Metrics :=
  ⟨font_size, line_height⟩

/-- `Config::metrics` from `config.rs`: line height is
`(font_size * 1.4).ceil()` of the adjusted font size. -/
def Config.metrics (cfg : Config) (zoom_adj : Int) : Metrics :=
  let font_size := cfg.font_size_adjusted zoom_adj
  let line_height : ℚ := (⌈font_size * (7 / 5 : ℚ)⌉ : ℤ)
  Metrics.new font_size line_height

/-- `Config::syntax_theme` from `config.rs`: pick the dark syntax theme
exactly when the resolved theme is dark. -/
def Config.syntax_theme (cfg : Config) (systemPrefersDark : Bool) : String :=
  if (cfg.app_theme.theme systemPrefersDark).dark then
    cfg.syntax_theme_dark
  else
    cfg.syntax_theme_light

/-! ### Regular expressions

Modelled from the spec: `Config::find_regex` delegates pattern compilation and
matching to the external `regex` crate. The spec describes that collaborator
as a compiler that fails on syntactically invalid patterns, treats an escaped
pattern entirely literally, and exposes a case-insensitivity flag. The model
below covers grouping `(` `)`, alternation `|`, the repetitions `*` `+` `?`,
the wildcard `.`, and backslash escapes; remaining characters are treated as
literals. Matching semantics are given by Brzozowski derivatives, with a
character-equivalence parameter realising the case-insensitivity flag. -/

/-- Abstract syntax of the modelled regular expressions. -/
inductive Regex where
  | emptyR
  | eps
  | lit (c : Char)
  | dot
  | cat (r s : Regex)
  | alt (r s : Regex)
  | star (r : Regex)
deriving DecidableEq, Repr

/-- Does the regex accept the empty string? -/
def Regex.nullable : Regex → Bool
  | .emptyR => false
  | .eps => true
  | .lit _ => false
  | .dot => false
  | .cat r s => r.nullable && s.nullable
  | .alt r s => r.nullable || s.nullable
  | .star _ => true

/-- Brzozowski derivative with respect to one character, under a character
equivalence `eqv` (used for the case-insensitivity flag). -/
def Regex.deriv (eqv : Char → Char → Bool) : Regex → Char → Regex
  | .emptyR, _ => .emptyR
  | .eps, _ => .emptyR
  | .lit c, a => if eqv c a then .eps else .emptyR
  | .dot, _ => .eps
  | .cat r s, a =>
      if r.nullable then
        .alt (.cat (Regex.deriv eqv r a) s) (Regex.deriv eqv s a)
      else
        .cat (Regex.deriv eqv r a) s
  | .alt r s, a => .alt (Regex.deriv eqv r a) (Regex.deriv eqv s a)
  | .star r, a => .cat (Regex.deriv eqv r a) (.star r)

/-- Whole-string matching by repeated derivation. -/
def Regex.fullMatch (eqv : Char → Char → Bool) : Regex → List Char → Bool
  | r, [] => r.nullable
  | r, a :: s => Regex.fullMatch eqv (r.deriv eqv a) s

/-- Does some (possibly empty) leading segment of the string match? -/
def Regex.matchesForward (eqv : Char → Char → Bool) : Regex → List Char → Bool
  | r, [] => r.nullable
  | r, a :: s => r.nullable || Regex.matchesForward eqv (r.deriv eqv a) s

/-- Substring search: does the regex match anywhere inside the string? -/
def Regex.search (eqv : Char → Char → Bool) : Regex → List Char → Bool
  | r, [] => r.nullable
  | r, a :: s => Regex.matchesForward eqv r (a :: s) || Regex.search eqv r s

/-- Pointwise equivalence of two strings of equal length. -/
def eqvList (eqv : Char → Char → Bool) : List Char → List Char → Bool
  | [], [] => true
  | c :: p, a :: s => eqv c a && eqvList eqv p s
  | _, _ => false

/-- Is `p` equivalent to a leading segment of `s`? -/
def leadsEqv (eqv : Char → Char → Bool) : List Char → List Char → Bool
  | [], _ => true
  | _ :: _, [] => false
  | c :: p, a :: s => eqv c a && leadsEqv eqv p s

/-- Is `p` equivalent to a contiguous segment of `s`? -/
def segmentEqv (eqv : Char → Char → Bool) : List Char → List Char → Bool
  | p, [] => leadsEqv eqv p []
  | p, a :: s => leadsEqv eqv p (a :: s) || segmentEqv eqv p s

/-- Concatenation of single-character literals: the compilation of an escaped
pattern. -/
def litCat : List Char → Regex
  | [] => .eps
  | c :: p => .cat (.lit c) (litCat p)

/-- The characters escaped by `regex::escape` (the crate's meta characters). -/
def isMeta (c : Char) : Bool :=
  c = '\\' || c = '.' || c = '+' || c = '*' || c = '?' || c = '(' || c = ')' ||
  c = '|' || c = '[' || c = ']' || c = '{' || c = '}' || c = '^' || c = '$' ||
  c = '#' || c = '&' || c = '-' || c = '~'

/-- One character of `regex::escape` output. -/
def escapeChar (c : Char) : List Char :=
  if isMeta c then ['\\', c] else [c]

/-- `regex::escape`: prefix every meta character with a backslash. -/
def escape : List Char → List Char
  | [] => []
  | c :: p => escapeChar c ++ escape p

/-- Pattern-compilation errors of the modelled compiler. -/
inductive RegexError where
  | unclosedGroup
  | unopenedGroup
  | danglingEscape
  | missingRepeatArg
deriving DecidableEq, Repr

/-- A suspended enclosing group during parsing: its finished alternatives and
its current (reversed) concatenation. -/
abbrev Frame := List Regex × List Regex

/-- Fold a reversed concatenation list into a regex. -/
def concatR (cur : List Regex) : Regex :=
  cur.foldl (fun acc r => Regex.cat r acc) Regex.eps

/-- Finish a group: alternatives so far, then the current concatenation. -/
def finishAlts (alts cur : List Regex) : Regex :=
  alts.foldr Regex.alt (concatR cur)

/-- One-pass parser for the modelled syntax. `stack` holds the suspended
enclosing groups, `alts`/`cur` the state of the innermost group, and `esc`
records a pending backslash. -/
def parseLoop : List Char → List Frame → List Regex → List Regex → Bool →
    Except RegexError Regex
  | [], stack, alts, cur, esc =>
      if esc then .error .danglingEscape
      else
        match stack with
        | [] => .ok (finishAlts alts cur)
        | _ :: _ => .error .unclosedGroup
  | c :: rest, stack, alts, cur, esc =>
      if esc then parseLoop rest stack alts (.lit c :: cur) false
      else if c = '\\' then parseLoop rest stack alts cur true
      else if c = '(' then parseLoop rest ((alts, cur) :: stack) [] [] false
      else if c = ')' then
        match stack with
        | [] => .error .unopenedGroup
        | (palts, pcur) :: s =>
            parseLoop rest s palts (finishAlts alts cur :: pcur) false
      else if c = '|' then parseLoop rest stack (alts ++ [concatR cur]) [] false
      else if c = '*' then
        match cur with
        | [] => .error .missingRepeatArg
        | r :: rs => parseLoop rest stack alts (.star r :: rs) false
      else if c = '+' then
        match cur with
        | [] => .error .missingRepeatArg
        | r :: rs => parseLoop rest stack alts (.cat r (.star r) :: rs) false
      else if c = '?' then
        match cur with
        | [] => .error .missingRepeatArg
        | r :: rs => parseLoop rest stack alts (.alt .eps r :: rs) false
      else if c = '.' then parseLoop rest stack alts (.dot :: cur) false
      else parseLoop rest stack alts (.lit c :: cur) false

/-- Top-level pattern compilation (`RegexBuilder::build`'s parsing phase). -/
def parse (pattern : List Char) : Except RegexError Regex :=
  parseLoop pattern [] [] [] false

/-- Case folding applied to both sides of every character comparison when the
case-insensitivity flag is set. -/
def caseFold (ci : Bool) (c : Char) : Char :=
  if ci then c.toLower else c

/-- Character equivalence induced by the case-insensitivity flag. -/
def eqvOf (ci : Bool) : Char → Char → Bool :=
  fun a b => caseFold ci a == caseFold ci b

/-- A built pattern: syntax plus the configured case-insensitivity flag. -/
structure CompiledRegex where
  re : Regex
  case_insensitive : Bool
deriving DecidableEq, Repr

/-- Substring search with the compiled pattern (`Regex::is_match`). -/
def CompiledRegex.isMatch (cr : CompiledRegex) (s : List Char) : Bool :=
  Regex.search (eqvOf cr.case_insensitive) cr.re s

/-- `Config::find_regex` from `config.rs`: build from the raw pattern in regex
mode and from the escaped pattern otherwise, with the case-insensitivity flag
set to the negation of `find_case_sensitive`. -/
def Config.find_regex (cfg : Config) (pattern : List Char) :
    Except RegexError CompiledRegex :=
  let src := if cfg.find_use_regex then pattern else escape pattern
  (parse src).map fun re => { re := re, case_insensitive := !cfg.find_case_sensitive }

/-! ### Menu construction (`menu.rs`) -/

/-- Modelled from the spec: the external localization lookup `fl!` is out of
scope; labels are represented by their lookup keys. -/
def fl (key : String) : String :=
  key

/-- Modelled from the spec: the `fl!` lookup with a `tab_width` argument. -/
def flTabWidth (n : Nat) : String :=
  "tab-width " ++ toString n

/-- A node of the declarative menu tree built by `menu.rs`: a clickable leaf
(label, displayed keybinding text, emitted message), a horizontal rule, or a
folder with children. -/
inductive MenuTree where
  | item (label : String) (keyText : String) (message : Message)
  | rule
  | folder (label : String) (children : List MenuTree)

/-- The complete menu bar: root labels with their subtrees. -/
structure MenuBar where
  roots : List (String × List MenuTree)

/-- The keybinding scan inside `menu_item` in `menu.rs`: start from the empty
string, take the textual representation of the first entry whose message
matches, stop at the first match. -/
def findKeybind (keybinds : List (String × Message)) (message : Message) : String :=
  match keybinds with
  | [] => ""
  | (kb, m) :: rest => if m = message then kb else findKeybind rest message

/-- `menu_item` from `menu.rs`: leaf whose keybinding text comes from the
linear scan over the configuration's keybinding table. -/
def menu_item (keybinds : List (String × Message)) (label : String)
    (message : Message) : MenuTree :=
  MenuTree.item label (findKeybind keybinds message) message

/-- `menu_key` from `menu.rs`: leaf with a hard-coded keybinding text. -/
def menu_key (label key : String) (message : Message) : MenuTree :=
  MenuTree.item label key message

/-- `menu_bar` from `menu.rs`: the full static menu forest. -/
def menu_bar (config : Config) : MenuBar :=
  ⟨[
    (fl "file",
      [menu_item config.keybinds (fl "new-file") Message.New,
       menu_key (fl "new-window") "Ctrl + Shift + N" Message.Todo,
       MenuTree.rule,
       menu_item config.keybinds (fl "open-file") Message.OpenFileDialog,
       MenuTree.folder (fl "open-recent")
         [menu_item config.keybinds (fl "todo") Message.Todo],
       MenuTree.rule,
       menu_item config.keybinds (fl "save") Message.Save,
       menu_key (fl "save-as") "Ctrl + Shift + S" Message.Todo,
       MenuTree.rule,
       menu_item config.keybinds (fl "revert-all-changes") Message.Todo,
       MenuTree.rule,
       menu_item config.keybinds (fl "document-statistics") Message.Todo,
       menu_item config.keybinds (fl "document-type") Message.Todo,
       menu_item config.keybinds (fl "encoding") Message.Todo,
       menu_item config.keybinds (fl "print") Message.Todo,
       MenuTree.rule,
       menu_key (fl "quit") "Ctrl + Q" Message.Todo]),
    (fl "edit",
      [menu_key (fl "undo") "Ctrl + Z" Message.Todo,
       menu_key (fl "redo") "Ctrl + Shift + Z" Message.Todo,
       MenuTree.rule,
       menu_key (fl "cut") "Ctrl + X" Message.Todo,
       menu_key (fl "copy") "Ctrl + C" Message.Todo,
       menu_key (fl "paste") "Ctrl + V" Message.Todo,
       MenuTree.rule,
       menu_key (fl "find") "Ctrl + F" Message.Todo,
       menu_key (fl "replace") "Ctrl + H" Message.Todo,
       MenuTree.rule,
       menu_item config.keybinds (fl "spell-check") Message.Todo]),
    (fl "view",
      [MenuTree.folder (fl "indentation")
         [menu_item config.keybinds (fl "automatic-indentation") Message.Todo,
          MenuTree.rule,
          menu_item config.keybinds (flTabWidth 1) Message.Todo,
          menu_item config.keybinds (flTabWidth 2) Message.Todo,
          menu_item config.keybinds (flTabWidth 4) Message.Todo,
          menu_item config.keybinds (flTabWidth 8) Message.Todo,
          MenuTree.rule,
          menu_item config.keybinds (fl "convert-indentation-to-spaces") Message.Todo,
          menu_item config.keybinds (fl "convert-indentation-to-tabs") Message.Todo],
       MenuTree.rule,
       menu_item config.keybinds (fl "word-wrap") Message.Todo,
       menu_item config.keybinds (fl "show-line-numbers") Message.Todo,
       menu_item config.keybinds (fl "highlight-current-line") Message.Todo,
       menu_item config.keybinds (fl "syntax-highlighting") Message.Todo,
       MenuTree.rule,
       menu_key (fl "settings") "Ctrl + ," Message.Todo,
       MenuTree.rule,
       menu_item config.keybinds (fl "keyboard-shortcuts") Message.Todo,
       MenuTree.rule,
       menu_item config.keybinds (fl "about-cosmic-text-editor") Message.Todo])
  ]⟩

/-! ### Helper lemmas: parsing an escaped pattern -/

/-- A non-meta character is none of the characters the parser branches on. -/
theorem not_meta_ne (c : Char) (h : isMeta c = false) :
    c ≠ '\\' ∧ c ≠ '(' ∧ c ≠ ')' ∧ c ≠ '|' ∧ c ≠ '*' ∧ c ≠ '+' ∧ c ≠ '?' ∧
      c ≠ '.' := by
  refine ⟨?_, ?_, ?_, ?_, ?_, ?_, ?_, ?_⟩ <;> intro e <;> subst e <;>
    simp [isMeta] at h

/-- Running the parser over `escape p` just pushes the literals of `p` onto
the current concatenation. -/
theorem parseLoop_escape (p : List Char) (rest : List Char) (stack : List Frame)
    (alts cur : List Regex) :
    parseLoop (escape p ++ rest) stack alts cur false =
    parseLoop rest stack alts ((p.map Regex.lit).reverse ++ cur) false := by
  induction p generalizing cur with
  | nil => simp [escape]
  | cons c p ih =>
    by_cases h : isMeta c
    · have hs : escape (c :: p) ++ rest = '\\' :: c :: (escape p ++ rest) := by
        simp [escape, escapeChar, h]
      rw [hs]
      have h1 : parseLoop ('\\' :: c :: (escape p ++ rest)) stack alts cur false =
          parseLoop (c :: (escape p ++ rest)) stack alts cur true := by
        simp [parseLoop]
      have h2 : parseLoop (c :: (escape p ++ rest)) stack alts cur true =
          parseLoop (escape p ++ rest) stack alts (.lit c :: cur) false := by
        simp [parseLoop]
      rw [h1, h2, ih]
      simp
    · have hs : escape (c :: p) ++ rest = c :: (escape p ++ rest) := by
        simp [escape, escapeChar, h]
      have hm : isMeta c = false := by simpa using h
      obtain ⟨hb, h1, h2, h3, h4, h5, h6, h7⟩ := not_meta_ne c hm
      have hstep : parseLoop (c :: (escape p ++ rest)) stack alts cur false =
          parseLoop (escape p ++ rest) stack alts (.lit c :: cur) false := by
        simp [parseLoop, hb, h1, h2, h3, h4, h5, h6, h7]
      rw [hs, hstep, ih]
      simp

/-- Folding the reversed literal list back up yields `litCat`. -/
theorem concatR_rev_lit (p : List Char) :
    concatR ((p.map Regex.lit).reverse) = litCat p := by
  unfold concatR
  rw [List.foldl_reverse]
  induction p with
  | nil => rfl
  | cons c p ih => simp only [List.map_cons, List.foldr_cons, litCat, ih]

/-- Compiling an escaped pattern always succeeds and yields the concatenation
of the pattern's characters as literals. -/
theorem parse_escape (p : List Char) : parse (escape p) = .ok (litCat p) := by
  have h := parseLoop_escape p [] [] [] []
  rw [List.append_nil] at h
  unfold parse
  rw [h]
  simp [parseLoop, finishAlts, concatR_rev_lit]

/-! ### Helper lemmas: matching a purely literal pattern -/

theorem fullMatch_emptyR (eqv : Char → Char → Bool) (s : List Char) :
    Regex.fullMatch eqv .emptyR s = false := by
  induction s with
  | nil => rfl
  | cons a s ih => simpa [Regex.fullMatch, Regex.deriv] using ih

theorem fullMatch_alt (eqv : Char → Char → Bool) (s : List Char) :
    ∀ r t : Regex, Regex.fullMatch eqv (.alt r t) s =
      (Regex.fullMatch eqv r s || Regex.fullMatch eqv t s) := by
  induction s with
  | nil => intro r t; simp [Regex.fullMatch, Regex.nullable]
  | cons a s ih => intro r t; simp [Regex.fullMatch, Regex.deriv, ih]

theorem fullMatch_cat_emptyR (eqv : Char → Char → Bool) (s : List Char) :
    ∀ r : Regex, Regex.fullMatch eqv (.cat .emptyR r) s = false := by
  induction s with
  | nil => intro r; simp [Regex.fullMatch, Regex.nullable]
  | cons a s ih => intro r; simpa [Regex.fullMatch, Regex.deriv, Regex.nullable] using ih r

theorem fullMatch_cat_eps (eqv : Char → Char → Bool) (r : Regex) (s : List Char) :
    Regex.fullMatch eqv (.cat .eps r) s = Regex.fullMatch eqv r s := by
  cases s with
  | nil => simp [Regex.fullMatch, Regex.nullable]
  | cons a s =>
      simp [Regex.fullMatch, Regex.deriv, Regex.nullable, fullMatch_alt,
        fullMatch_cat_emptyR]

theorem fullMatch_litCat (eqv : Char → Char → Bool) :
    ∀ p s : List Char, Regex.fullMatch eqv (litCat p) s = eqvList eqv p s := by
  intro p
  induction p with
  | nil =>
      intro s
      cases s with
      | nil => rfl
      | cons a s => simp [litCat, Regex.fullMatch, Regex.deriv, fullMatch_emptyR, eqvList]
  | cons c p ih =>
      intro s
      cases s with
      | nil => simp [litCat, Regex.fullMatch, Regex.nullable, eqvList]
      | cons a s =>
          simp only [litCat, Regex.fullMatch, Regex.deriv, Regex.nullable,
            Bool.false_and, Bool.false_eq_true, if_false]
          by_cases h : eqv c a = true
          · simp [h, fullMatch_cat_eps, ih, eqvList]
          · simp only [Bool.not_eq_true] at h
            simp [h, fullMatch_cat_emptyR, eqvList]

theorem matchesForward_alt (eqv : Char → Char → Bool) (s : List Char) :
    ∀ r t : Regex, Regex.matchesForward eqv (.alt r t) s =
      (Regex.matchesForward eqv r s || Regex.matchesForward eqv t s) := by
  induction s with
  | nil => intro r t; simp [Regex.matchesForward, Regex.nullable]
  | cons a s ih =>
      intro r t
      simp [Regex.matchesForward, Regex.deriv, Regex.nullable, ih,
        Bool.or_assoc, Bool.or_comm, Bool.or_left_comm]

theorem matchesForward_cat_emptyR (eqv : Char → Char → Bool) (s : List Char) :
    ∀ r : Regex, Regex.matchesForward eqv (.cat .emptyR r) s = false := by
  induction s with
  | nil => intro r; simp [Regex.matchesForward, Regex.nullable]
  | cons a s ih =>
      intro r
      simpa [Regex.matchesForward, Regex.deriv, Regex.nullable] using ih r

theorem matchesForward_cat_eps (eqv : Char → Char → Bool) (r : Regex) (s : List Char) :
    Regex.matchesForward eqv (.cat .eps r) s = Regex.matchesForward eqv r s := by
  cases s with
  | nil => simp [Regex.matchesForward, Regex.nullable]
  | cons a s =>
      simp [Regex.matchesForward, Regex.deriv, Regex.nullable, matchesForward_alt,
        matchesForward_cat_emptyR]

theorem matchesForward_litCat (eqv : Char → Char → Bool) :
    ∀ p s : List Char,
      Regex.matchesForward eqv (litCat p) s = leadsEqv eqv p s := by
  intro p
  induction p with
  | nil =>
      intro s
      cases s with
      | nil => rfl
      | cons a s => simp [litCat, Regex.matchesForward, Regex.nullable, leadsEqv]
  | cons c p ih =>
      intro s
      cases s with
      | nil => simp [litCat, Regex.matchesForward, Regex.nullable, leadsEqv]
      | cons a s =>
          simp only [litCat, Regex.matchesForward, Regex.deriv, Regex.nullable,
            Bool.false_and, Bool.false_eq_true, if_false, Bool.false_or]
          by_cases h : eqv c a = true
          · simp [h, matchesForward_cat_eps, ih, leadsEqv]
          · simp only [Bool.not_eq_true] at h
            simp [h, matchesForward_cat_emptyR, leadsEqv]

theorem search_litCat (eqv : Char → Char → Bool) (p : List Char) :
    ∀ s : List Char, Regex.search eqv (litCat p) s = segmentEqv eqv p s := by
  intro s
  induction s with
  | nil =>
      cases p with
      | nil => rfl
      | cons c p => simp [Regex.search, litCat, Regex.nullable, segmentEqv, leadsEqv]
  | cons a s ih => simp [Regex.search, matchesForward_litCat, segmentEqv, ih]

theorem leadsEqv_iff (f : Char → Char) :
    ∀ p s : List Char,
      leadsEqv (fun a b => f a == f b) p s = true ↔
        ∃ u, s.map f = p.map f ++ u := by
  intro p
  induction p with
  | nil => intro s; simp [leadsEqv]
  | cons c p ih =>
      intro s
      cases s with
      | nil => simp [leadsEqv]
      | cons a s =>
          simp only [leadsEqv, Bool.and_eq_true, beq_iff_eq, ih, List.map_cons,
            List.cons_append, List.cons.injEq]
          constructor
          · rintro ⟨h1, u, h2⟩
            exact ⟨u, h1.symm, h2⟩
          · rintro ⟨u, h1, h2⟩
            exact ⟨h1.symm, u, h2⟩

theorem segmentEqv_iff (f : Char → Char) (p : List Char) :
    ∀ s : List Char,
      segmentEqv (fun a b => f a == f b) p s = true ↔
        ∃ t u, s.map f = t ++ p.map f ++ u := by
  intro s
  induction s with
  | nil =>
      cases p with
      | nil =>
          simp only [segmentEqv, leadsEqv, List.map_nil]
          constructor
          · intro _
            exact ⟨[], [], rfl⟩
          · intro _
            trivial
      | cons c p =>
          simp only [segmentEqv, leadsEqv, List.map_nil, List.map_cons]
          constructor
          · intro h
            cases h
          · rintro ⟨t, u, h⟩
            exact absurd h.symm (by simp)
  | cons a s ih =>
      simp only [segmentEqv, Bool.or_eq_true, leadsEqv_iff, ih]
      constructor
      · rintro (⟨u, hu⟩ | ⟨t, u, h⟩)
        · exact ⟨[], u, by simpa using hu⟩
        · exact ⟨f a :: t, u, by simp [h]⟩
      · rintro ⟨t, u, h⟩
        cases t with
        | nil => exact Or.inl ⟨u, by simpa using h⟩
        | cons b t =>
            simp only [List.map_cons, List.cons_append, List.cons.injEq] at h
            exact Or.inr ⟨t, u, h.2⟩

/-! ### Claim theorems -/

/-- C1: `font_size_adjusted` computes `max(1, font_size) + z * (zoom_step /
100)` floored at `1.0`; the result is always `≥ 1.0`, and for `font_size ≥ 1`
the zero offset returns `font_size` exactly. The function is pure and total
over all zoom-offset inputs by construction. -/
theorem font_size_adjusted_props (cfg : Config) (z : Int) :
    1 ≤ cfg.font_size_adjusted z ∧
      (1 ≤ cfg.font_size → cfg.font_size_adjusted 0 = (cfg.font_size : ℚ)) := by
  constructor
  · simp only [Config.font_size_adjusted]
    exact le_max_right _ _
  · intro h
    have h' : (1 : ℚ) ≤ (cfg.font_size : ℚ) := by exact_mod_cast h
    simp [Config.font_size_adjusted, max_eq_left h']

/-- Witness for C1 at the default configuration. -/
theorem font_size_adjusted_props_witness :
    1 ≤ Config.default.font_size ∧
      Config.default.font_size_adjusted 0 = (14 : ℚ) := by
  constructor
  · decide
  · have h := (font_size_adjusted_props Config.default 0).2 (by decide)
    simpa [Config.default] using h

/-- C2: for every configuration and zoom offset, `metrics` returns the pair
whose line height is `ceil(font_size * 1.4)` of a font size that is exactly
`font_size_adjusted`; `metrics` is deterministic and total by construction. -/
theorem metrics_line_height (cfg : Config) (z : Int) :
    (cfg.metrics z).line_height = (⌈(cfg.metrics z).font_size * (7 / 5 : ℚ)⌉ : ℤ) ∧
      (cfg.metrics z).font_size = cfg.font_size_adjusted z :=
  ⟨rfl, rfl⟩

/-- C6: `syntax_theme` returns `syntax_theme_dark` exactly when the resolved
theme is dark, for all three `app_theme` settings and both host-preference
states. -/
theorem syntax_theme_selection (cfg : Config) (hostDark : Bool) :
    (cfg.app_theme = AppTheme.Dark →
        cfg.syntax_theme hostDark = cfg.syntax_theme_dark) ∧
      (cfg.app_theme = AppTheme.Light →
        cfg.syntax_theme hostDark = cfg.syntax_theme_light) ∧
      (cfg.app_theme = AppTheme.System →
        cfg.syntax_theme hostDark =
          if hostDark then cfg.syntax_theme_dark else cfg.syntax_theme_light) ∧
      cfg.syntax_theme hostDark =
        (if (cfg.app_theme.theme hostDark).dark then cfg.syntax_theme_dark
         else cfg.syntax_theme_light) := by
  refine ⟨?_, ?_, ?_, rfl⟩ <;> intro h <;>
    cases hostDark <;> simp [Config.syntax_theme, AppTheme.theme, h]

/-- Witness for C6 at the default configuration (`System` theme) under both
host preferences. -/
theorem syntax_theme_selection_witness :
    Config.default.syntax_theme true = "COSMIC Dark" ∧
      Config.default.syntax_theme false = "COSMIC Light" := by
  constructor
  · have h := (syntax_theme_selection Config.default true).2.2.1 rfl
    simpa [Config.default] using h
  · have h := (syntax_theme_selection Config.default false).2.2.1 rfl
    simpa [Config.default] using h

/-- C7: `Config::default` returns the documented baseline values exactly and
never fails (it is a total constant by construction). -/
theorem config_default_values :
    Config.default.app_theme = AppTheme.System ∧
      Config.default.auto_indent = true ∧
      Config.default.find_case_sensitive = false ∧
      Config.default.find_use_regex = false ∧
      Config.default.find_wrap_around = true ∧
      Config.default.font_name = "Noto Sans Mono" ∧
      Config.default.font_size = 14 ∧
      Config.default.font_size_zoom_step_mul_100 = 100 ∧
      Config.default.highlight_current_line = true ∧
      Config.default.line_numbers = true ∧
      Config.default.syntax_theme_dark = "COSMIC Dark" ∧
      Config.default.syntax_theme_light = "COSMIC Light" ∧
      Config.default.tab_width = 4 ∧
      Config.default.vim_bindings = false ∧
      Config.default.word_wrap = true :=
  ⟨rfl, rfl, rfl, rfl, rfl, rfl, rfl, rfl, rfl, rfl, rfl, rfl, rfl, rfl, rfl⟩

/-- The linear keybinding scan returns the first matching entry's text, or the
empty string when no entry matches. -/
theorem findKeybind_eq_findFirst (keybinds : List (String × Message))
    (message : Message) :
    findKeybind keybinds message =
      ((keybinds.find? fun e => e.2 == message).map Prod.fst).getD "" := by
  induction keybinds with
  | nil => rfl
  | cons kv rest ih =>
      obtain ⟨k, m⟩ := kv
      by_cases h : m = message
      · simp [findKeybind, h, List.find?]
      · have hb : (m == message) = false := by simp [h]
        simp [findKeybind, h, List.find?, hb, ih]

/-- C8: every leaf built by `menu_item` displays the textual representation of
the first keybinding-table entry whose message equals the leaf's message, or
the empty string when none matches; the lookup is total and pure (it neither
fails nor mutates the table) by construction. -/
theorem menu_item_keybind_lookup (keybinds : List (String × Message))
    (label : String) (message : Message) :
    menu_item keybinds label message =
      MenuTree.item label
        (((keybinds.find? fun e => e.2 == message).map Prod.fst).getD "")
        message := by
  rw [menu_item, findKeybind_eq_findFirst]

/-- C9: menu construction is stateless and deterministic: the menu bar is a
pure function of the configuration, and it depends only on the keybinding
table, so two builds over an unchanged configuration yield structurally
identical trees with identical labels and keybinding strings. -/
theorem menu_bar_deterministic (c₁ c₂ : Config)
    (h : c₁.keybinds = c₂.keybinds) :
    menu_bar c₁ = menu_bar c₂ := by
  unfold menu_bar
  rw [h]

/-- Witness for C9: two configurations agreeing on the keybinding table yield
the same menu bar. -/
theorem menu_bar_deterministic_witness :
    menu_bar Config.default = menu_bar { Config.default with font_size := 99 } :=
  menu_bar_deterministic _ _ rfl

/-- C3: with `find_use_regex = false` the compiled pattern matches a string
exactly when the pattern occurs in it as a contiguous literal substring (up to
the case folding governed by `find_case_sensitive`); every character of the
pattern, including regex meta characters, is escaped before compilation. -/
theorem find_regex_literal_matches (cfg : Config)
    (h : cfg.find_use_regex = false) (p s : List Char) :
    ∃ cr, cfg.find_regex p = .ok cr ∧
      (cr.isMatch s = true ↔
        ∃ t u, s.map (caseFold (!cfg.find_case_sensitive)) =
          t ++ p.map (caseFold (!cfg.find_case_sensitive)) ++ u) := by
  refine ⟨⟨litCat p, !cfg.find_case_sensitive⟩, ?_, ?_⟩
  · simp [Config.find_regex, h, parse_escape, Except.map]
  · show Regex.search (eqvOf (!cfg.find_case_sensitive)) (litCat p) s = true ↔ _
    rw [search_litCat]
    exact segmentEqv_iff (caseFold (!cfg.find_case_sensitive)) p s

/-- Witness for C3: the literal pattern `a.b` on the text `xa.by` at the
default configuration. -/
theorem find_regex_literal_matches_witness :
    Config.default.find_use_regex = false ∧
      ∃ cr, Config.default.find_regex ['a', '.', 'b'] = .ok cr ∧
        (cr.isMatch ['x', 'a', '.', 'b', 'y'] = true ↔
          ∃ t u,
            ['x', 'a', '.', 'b', 'y'].map
                (caseFold (!Config.default.find_case_sensitive)) =
              t ++ ['a', '.', 'b'].map
                  (caseFold (!Config.default.find_case_sensitive)) ++ u) :=
  ⟨rfl, find_regex_literal_matches Config.default rfl _ _⟩

/-- C4: with `find_use_regex = true`, a syntactically invalid pattern makes
`find_regex` return the compiler's pattern error to the caller (the embedding
is total, so no other failure mode exists). -/
theorem find_regex_invalid_pattern (cfg : Config)
    (h : cfg.find_use_regex = true) (p : List Char) (e : RegexError)
    (hp : parse p = .error e) :
    cfg.find_regex p = .error e := by
  simp [Config.find_regex, h, hp, Except.map]

/-- Witness for C4: the invalid pattern `a(` in regex mode. -/
theorem find_regex_invalid_pattern_witness :
    parse ['a', '('] = .error RegexError.unclosedGroup ∧
      ({ Config.default with find_use_regex := true } : Config).find_regex
          ['a', '('] =
        .error RegexError.unclosedGroup :=
  ⟨rfl, find_regex_invalid_pattern _ rfl _ _ rfl⟩

/-- C5: every pattern successfully compiled by `find_regex` carries the
case-insensitivity flag set to the negation of `find_case_sensitive`. -/
theorem find_regex_case_flag (cfg : Config) (p : List Char)
    (cr : CompiledRegex) (h : cfg.find_regex p = .ok cr) :
    cr.case_insensitive = !cfg.find_case_sensitive := by
  simp only [Config.find_regex] at h
  cases hp : parse (if cfg.find_use_regex then p else escape p) with
  | error e =>
      rw [hp] at h
      simp [Except.map] at h
  | ok re =>
      rw [hp] at h
      simp only [Except.map, Except.ok.injEq] at h
      subst h
      rfl

/-- Witness for C5: the default configuration is case-insensitive, and the
flag of the compiled pattern says so. -/
theorem find_regex_case_flag_witness :
    (⟨Regex.cat (Regex.lit 'z') Regex.eps, true⟩ : CompiledRegex).case_insensitive =
      !Config.default.find_case_sensitive :=
  find_regex_case_flag Config.default ['z'] _ rfl

/-- C10: with `find_use_regex = false`, compilation succeeds for every input
pattern, so the pattern-error failure path is reachable only in regex mode. -/
theorem find_regex_literal_total (cfg : Config)
    (h : cfg.find_use_regex = false) (p : List Char) :
    ∃ cr, cfg.find_regex p = .ok cr := by
  refine ⟨⟨litCat p, !cfg.find_case_sensitive⟩, ?_⟩
  simp [Config.find_regex, h, parse_escape, Except.map]

/-- Witness for C10: a pattern full of meta characters still compiles in
literal mode. -/
theorem find_regex_literal_total_witness :
    ∃ cr, Config.default.find_regex ['a', '(', '*'] = .ok cr :=
  find_regex_literal_total Config.default rfl _

end CosmicEdit
